import Mathlib

/-!
Verification of the post-scaffolding script `bin/mkpost.py`.

The script is embedded shallowly: the filesystem is a finite map from path
strings to file contents plus a list of existing directories; the script body
becomes the function `mkpost`, which returns the post-state filesystem together
with either the created path or the raised error.  The current date (Python
`datetime.datetime.today().date().isoformat()`) is a parameter `today`, and the
command-line surface (`argparse` with positional `title` and option `--dir`
defaulting to `ROOT_DIR`) is the function `mainRun`.

The external libraries `slugify` and `titlecase` are not part of this
repository; they are modelled from the specification (see the doc comments on
`slugMapChar`, `slugify` and `titlecase`).
-/

namespace Mkpost

/-- ASCII uppercase letter, by code point (65–90). -/
def isUpperAlpha (c : Char) : Bool := 65 ≤ c.toNat && c.toNat ≤ 90

/-- ASCII lowercase letter, by code point (97–122). -/
def isLowerAlpha (c : Char) : Bool := 97 ≤ c.toNat && c.toNat ≤ 122

/-- ASCII digit, by code point (48–57). -/
def isDigitChar (c : Char) : Bool := 48 ≤ c.toNat && c.toNat ≤ 57

/-- Lower-case a single character (ASCII range only). -/
def lowerChar (c : Char) : Char :=
  if isUpperAlpha c then Char.ofNat (c.toNat + 32) else c

/-- Upper-case a single character (ASCII range only). -/
def upperChar (c : Char) : Char :=
  if isLowerAlpha c then Char.ofNat (c.toNat - 32) else c

/-- Whitespace characters acting as word separators, by code point
(space, tab, line feed, carriage return). -/
def isSpaceChar (c : Char) : Bool :=
  c.toNat == 32 || c.toNat == 9 || c.toNat == 10 || c.toNat == 13

/-- Split a character list into the maximal non-empty runs of non-separator
characters; `acc` holds the current run, reversed. -/
def splitSep (sep : Char → Bool) : List Char → List Char → List (List Char)
  | [], acc => if acc.isEmpty then [] else [acc.reverse]
  | c :: cs, acc =>
    if sep c then
      if acc.isEmpty then splitSep sep cs []
      else acc.reverse :: splitSep sep cs []
    else splitSep sep cs (c :: acc)

/-- Join words with a single separator character between consecutive words. -/
def joinSep (sc : Char) : List (List Char) → List Char
  | [] => []
  | [w] => w
  | w :: w' :: ws => w ++ sc :: joinSep sc (w' :: ws)

/-- Modelled from the spec: the per-character step of slug normalization by the
external `slugify` library (not part of this repository): letters are kept and
lower-cased, digits are kept, whitespace and existing separators become word
breaks, and all other (punctuation or non-transliterable) characters are
stripped. -/
def slugMapChar (c : Char) : Option Char :=
  if isUpperAlpha c then some (lowerChar c)
  else if isLowerAlpha c || isDigitChar c then some c
  else if isSpaceChar c || c.toNat == 45 || c.toNat == 95 then some ' '
  else none

/-- Modelled from the spec: `slugify.slugify` of the external `python-slugify`
library (not part of this repository): lower-case, strip punctuation, and
collapse whitespace/separator runs into single hyphens. -/
def slugify (s : String) : String :=
  (joinSep '-' (splitSep isSpaceChar (s.data.filterMap slugMapChar) [])).asString

/-- Minor words kept lowercase by conventional title-casing. -/
def smallWords : List String :=
  ["a", "an", "and", "as", "at", "but", "by", "en", "for", "if",
   "in", "of", "on", "or", "the", "to", "v", "via", "vs"]

/-- Lower-case every character of a word. -/
def lowerWord (w : List Char) : List Char := w.map lowerChar

/-- A word is "small" when its lower-cased form is a minor word. -/
def isSmallWord (w : List Char) : Bool := smallWords.contains (lowerWord w).asString

/-- Capitalize a word: first character upper-cased, the rest lower-cased. -/
def capWord : List Char → List Char
  | [] => []
  | c :: cs => upperChar c :: cs.map lowerChar

/-- Title-case a word in non-first, non-last position: minor words are
lower-cased, principal words are capitalized. -/
def tcMiddle (w : List Char) : List Char :=
  if isSmallWord w then lowerWord w else capWord w

/-- Title-case every word after the first; the final word is always
capitalized. -/
def tcRest : List (List Char) → List (List Char)
  | [] => []
  | [w] => [capWord w]
  | w :: w' :: ws => tcMiddle w :: tcRest (w' :: ws)

/-- Title-case a word list: the first and last words are always capitalized,
middle minor words are lower-cased. -/
def tcWords : List (List Char) → List (List Char)
  | [] => []
  | w :: ws => capWord w :: tcRest ws

/-- Modelled from the spec: `titlecase.titlecase` of the external `titlecase`
library (not part of this repository): capitalize principal words and keep
small connecting words lowercase unless they are the first or last word. -/
def titlecase (s : String) : String :=
  (joinSep ' ' (tcWords (splitSep isSpaceChar s.data []))).asString

/-- The filesystem: existing regular files (path, contents) and existing
directories. -/
structure FS where
  files : List (String × String)
  dirs : List String
deriving DecidableEq

/-- `os.path.isdir`. -/
def FS.isDir (fs : FS) (p : String) : Bool := fs.dirs.contains p

/-- `os.path.exists`: true for regular files and for directories. -/
def FS.pathExists (fs : FS) (p : String) : Bool :=
  fs.files.any (fun kv => kv.1 == p) || fs.dirs.contains p

/-- The single exception type raised by the script (Python `IOError`); the two
failure kinds share it and differ only in the message text. -/
structure IOError where
  message : String
deriving DecidableEq

/-- The error raised when the supplied directory is not a directory
(the spec's `ConfigurationError` kind). -/
def configurationError (p : String) : IOError :=
  ⟨p ++ " is not a directory! Aborting."⟩

/-- The error raised when the target path already exists
(the spec's `ConflictError` kind). -/
def conflictError (p : String) : IOError :=
  ⟨p ++ " already exists! Aborting."⟩

/-- The fixed template written to the new post file. -/
def template (post_title today post_slug : String) : String :=
  "Title: " ++ post_title ++ "\nDate: " ++ today ++
  "\nTags: Python, Pelican\nSlug: " ++ post_slug ++ "\n\nText here\n\n"

/-- `os.path.join(dir, today_slug.md)` as composed by the script. -/
def targetPath (dir today slug : String) : String :=
  dir ++ "/" ++ today ++ "_" ++ slug ++ ".md"

/-- The body of `bin/mkpost.py` after argument parsing: directory check, slug
and display title, target path, existence check, single template write. -/
def mkpost (fs : FS) (dir raw_title today : String) : FS × Except IOError String :=
  if !fs.isDir dir then (fs, .error (configurationError dir))
  else
    let post_slug := slugify raw_title
    let post_title := titlecase raw_title
    let postpath := targetPath dir today post_slug
    if fs.pathExists postpath then (fs, .error (conflictError postpath))
    else
      ({ fs with files := (postpath, template post_title today post_slug) :: fs.files },
       .ok postpath)

/-- A POSIX path is absolute when it starts with a slash. -/
def isAbsPath (p : String) : Bool := p.data.head? == some '/'

/-- Modelled from the spec: the module-level constant `ROOT_DIR`, computed as
`os.path.realpath` of `<script dir>/../content`; `realpath` itself is not part
of this repository, and is modelled by its guarantee that, given the repository
root as an absolute path, the result is the absolute path of its `content`
subdirectory. -/
def rootDir (repoRoot : String) : String := repoRoot ++ "/content"

/-- The directory actually used by the script: the `--dir` argument verbatim
when supplied, otherwise the default content root. -/
def usedDir (dirArg : Option String) (root : String) : String := dirArg.getD root

/-- The whole invocation: argument handling (`--dir` defaulting to the content
root) followed by the script body. -/
def mainRun (fs : FS) (raw_title : String) (dirArg : Option String)
    (today root : String) : FS × Except IOError String :=
  mkpost fs (usedDir dirArg root) raw_title today

/-! ### Character-level lemmas -/

theorem valid_of_lt {n : Nat} (h : n < 55296) : n.isValidChar := Or.inl h

theorem toNat_ofNat_valid (n : Nat) (h : n.isValidChar) : (Char.ofNat n).toNat = n := by
  simp [Char.ofNat, h, Char.ofNatAux, Char.toNat, UInt32.toNat]

theorem isUpperAlpha_iff {c : Char} : isUpperAlpha c = true ↔ 65 ≤ c.toNat ∧ c.toNat ≤ 90 := by
  simp [isUpperAlpha]

theorem isLowerAlpha_iff {c : Char} : isLowerAlpha c = true ↔ 97 ≤ c.toNat ∧ c.toNat ≤ 122 := by
  simp [isLowerAlpha]

theorem isDigitChar_iff {c : Char} : isDigitChar c = true ↔ 48 ≤ c.toNat ∧ c.toNat ≤ 57 := by
  simp [isDigitChar]

theorem isUpperAlpha_eq_false {c : Char} (h : ¬(65 ≤ c.toNat ∧ c.toNat ≤ 90)) :
    isUpperAlpha c = false := by
  rw [Bool.eq_false_iff]
  intro hc
  exact h (isUpperAlpha_iff.mp hc)

theorem isLowerAlpha_eq_false {c : Char} (h : ¬(97 ≤ c.toNat ∧ c.toNat ≤ 122)) :
    isLowerAlpha c = false := by
  rw [Bool.eq_false_iff]
  intro hc
  exact h (isLowerAlpha_iff.mp hc)

theorem lowerChar_eq_of_not_upper {c : Char} (h : isUpperAlpha c = false) :
    lowerChar c = c := by
  simp [lowerChar, h]

theorem upperChar_eq_of_not_lower {c : Char} (h : isLowerAlpha c = false) :
    upperChar c = c := by
  simp [upperChar, h]

theorem toNat_lowerChar_of_upper {c : Char} (h : isUpperAlpha c = true) :
    (lowerChar c).toNat = c.toNat + 32 := by
  have hb := isUpperAlpha_iff.mp h
  rw [lowerChar, if_pos h]
  exact toNat_ofNat_valid _ (valid_of_lt (by omega))

theorem toNat_upperChar_of_lower {c : Char} (h : isLowerAlpha c = true) :
    (upperChar c).toNat = c.toNat - 32 := by
  have hb := isLowerAlpha_iff.mp h
  rw [upperChar, if_pos h]
  exact toNat_ofNat_valid _ (valid_of_lt (by omega))

theorem isLowerAlpha_lowerChar_of_upper {c : Char} (h : isUpperAlpha c = true) :
    isLowerAlpha (lowerChar c) = true := by
  have hb := isUpperAlpha_iff.mp h
  rw [isLowerAlpha_iff, toNat_lowerChar_of_upper h]
  omega

theorem isUpperAlpha_lowerChar (c : Char) : isUpperAlpha (lowerChar c) = false := by
  by_cases h : isUpperAlpha c = true
  · have hb := isUpperAlpha_iff.mp h
    apply isUpperAlpha_eq_false
    rw [toNat_lowerChar_of_upper h]
    omega
  · rw [lowerChar_eq_of_not_upper (Bool.eq_false_iff.mpr h)]
    exact Bool.eq_false_iff.mpr h

theorem isLowerAlpha_upperChar (c : Char) : isLowerAlpha (upperChar c) = false := by
  by_cases h : isLowerAlpha c = true
  · have hb := isLowerAlpha_iff.mp h
    apply isLowerAlpha_eq_false
    rw [toNat_upperChar_of_lower h]
    omega
  · rw [upperChar_eq_of_not_lower (Bool.eq_false_iff.mpr h)]
    exact Bool.eq_false_iff.mpr h

theorem lowerChar_lowerChar (c : Char) : lowerChar (lowerChar c) = lowerChar c :=
  lowerChar_eq_of_not_upper (isUpperAlpha_lowerChar c)

theorem upperChar_upperChar (c : Char) : upperChar (upperChar c) = upperChar c :=
  upperChar_eq_of_not_lower (isLowerAlpha_upperChar c)

theorem lowerChar_upperChar (c : Char) : lowerChar (upperChar c) = lowerChar c := by
  by_cases h : isLowerAlpha c = true
  · have hb := isLowerAlpha_iff.mp h
    have hup : isUpperAlpha (upperChar c) = true := by
      rw [isUpperAlpha_iff, toNat_upperChar_of_lower h]
      omega
    have h1 : lowerChar (upperChar c) = Char.ofNat ((upperChar c).toNat + 32) := by
      rw [lowerChar, if_pos hup]
    have h2 : (upperChar c).toNat + 32 = c.toNat := by
      rw [toNat_upperChar_of_lower h]
      omega
    have h3 : lowerChar c = c := by
      apply lowerChar_eq_of_not_upper
      apply isUpperAlpha_eq_false
      omega
    rw [h1, h2, Char.ofNat_toNat, h3]
  · rw [upperChar_eq_of_not_lower (Bool.eq_false_iff.mpr h)]

theorem isSpaceChar_iff {c : Char} :
    isSpaceChar c = true ↔ c.toNat = 32 ∨ c.toNat = 9 ∨ c.toNat = 10 ∨ c.toNat = 13 := by
  simp [isSpaceChar, Bool.or_eq_true_iff, or_assoc]

theorem isSpaceChar_eq_false {c : Char}
    (h : ¬(c.toNat = 32 ∨ c.toNat = 9 ∨ c.toNat = 10 ∨ c.toNat = 13)) :
    isSpaceChar c = false := by
  rw [Bool.eq_false_iff]
  intro hc
  exact h (isSpaceChar_iff.mp hc)

theorem isSpaceChar_lowerChar (c : Char) : isSpaceChar (lowerChar c) = isSpaceChar c := by
  by_cases h : isUpperAlpha c = true
  · have hb := isUpperAlpha_iff.mp h
    rw [isSpaceChar_eq_false (by rw [toNat_lowerChar_of_upper h]; omega),
      isSpaceChar_eq_false (by omega)]
  · rw [lowerChar_eq_of_not_upper (Bool.eq_false_iff.mpr h)]

theorem isSpaceChar_upperChar (c : Char) : isSpaceChar (upperChar c) = isSpaceChar c := by
  by_cases h : isLowerAlpha c = true
  · have hb := isLowerAlpha_iff.mp h
    rw [isSpaceChar_eq_false (by rw [toNat_upperChar_of_lower h]; omega),
      isSpaceChar_eq_false (by omega)]
  · rw [upperChar_eq_of_not_lower (Bool.eq_false_iff.mpr h)]

/-! ### Lemmas about `splitSep` and `joinSep` -/

/-- Every word produced by `splitSep` is non-empty, and its characters are
non-separator characters of the input (or of the accumulator). -/
theorem splitSep_sound (sep : Char → Bool) (Q : Char → Prop) :
    ∀ l acc : List Char, (∀ c ∈ l, sep c = false → Q c) → (∀ c ∈ acc, Q c ∧ sep c = false) →
      ∀ w ∈ splitSep sep l acc, w ≠ [] ∧ ∀ c ∈ w, Q c ∧ sep c = false := by
  intro l
  induction l with
  | nil =>
    intro acc _ hacc w hw
    rw [splitSep] at hw
    split at hw
    · simp at hw
    · next hne =>
      rw [List.mem_singleton] at hw
      subst hw
      refine ⟨?_, ?_⟩
      · rw [ne_eq, List.reverse_eq_nil_iff]
        intro h
        rw [h] at hne
        simp at hne
      · intro c hc
        exact hacc c (List.mem_reverse.mp hc)
  | cons c cs ih =>
    intro acc hl hacc w hw
    rw [splitSep] at hw
    by_cases hc : sep c = true
    · rw [if_pos hc] at hw
      split at hw
      · exact ih [] (fun x hx => hl x (List.mem_cons_of_mem _ hx)) (by simp) w hw
      · next hne =>
        rcases List.mem_cons.mp hw with hw | hw
        · subst hw
          refine ⟨?_, ?_⟩
          · rw [ne_eq, List.reverse_eq_nil_iff]
            intro h
            rw [h] at hne
            simp at hne
          · intro x hx
            exact hacc x (List.mem_reverse.mp hx)
        · exact ih [] (fun x hx => hl x (List.mem_cons_of_mem _ hx)) (by simp) w hw
    · rw [if_neg hc] at hw
      refine ih (c :: acc) (fun x hx => hl x (List.mem_cons_of_mem _ hx)) ?_ w hw
      intro x hx
      rcases List.mem_cons.mp hx with hx | hx
      · subst hx
        exact ⟨hl x (List.mem_cons_self _ _) (Bool.eq_false_iff.mpr hc), Bool.eq_false_iff.mpr hc⟩
      · exact hacc x hx

/-- Feeding a separator-free chunk into `splitSep` just extends the
accumulator. -/
theorem splitSep_append (sep : Char → Bool) :
    ∀ w l acc : List Char, (∀ c ∈ w, sep c = false) →
      splitSep sep (w ++ l) acc = splitSep sep l (w.reverse ++ acc) := by
  intro w
  induction w with
  | nil => intro l acc _; simp
  | cons c cs ih =>
    intro l acc h
    rw [List.cons_append, splitSep, if_neg (by simp [h c (List.mem_cons_self _ _)])]
    rw [ih l (c :: acc) (fun x hx => h x (List.mem_cons_of_mem _ hx))]
    simp

/-- Splitting undoes joining: for non-empty separator-free words, `splitSep`
recovers exactly the word list built by `joinSep`. -/
theorem splitSep_join (sep : Char → Bool) (sc : Char) (hsc : sep sc = true) :
    ∀ ws : List (List Char), (∀ w ∈ ws, w ≠ [] ∧ ∀ c ∈ w, sep c = false) →
      splitSep sep (joinSep sc ws) [] = ws
  | [], _ => by rw [joinSep, splitSep]; rfl
  | [w], h => by
    have hw := h w (List.mem_cons_self _ _)
    rw [joinSep, ← List.append_nil w, splitSep_append sep w [] [] hw.2, splitSep]
    rw [if_neg (by simp [List.isEmpty_iff, hw.1])]
    simp
  | w :: w' :: ws, h => by
    have hw := h w (List.mem_cons_self _ _)
    rw [joinSep, splitSep_append sep w _ [] hw.2, splitSep, if_pos hsc]
    rw [if_neg (by simp [List.isEmpty_iff, hw.1])]
    rw [splitSep_join sep sc hsc (w' :: ws) (fun u hu => h u (List.mem_cons_of_mem _ hu))]
    simp

/-- Every character of a join is the separator or a character of some word. -/
theorem joinSep_forall (sc : Char) (P : Char → Prop) (hP : P sc) :
    ∀ ws : List (List Char), (∀ w ∈ ws, ∀ c ∈ w, P c) →
      ∀ c ∈ joinSep sc ws, P c
  | [], _ => by simp [joinSep]
  | [w], h => by
    rw [joinSep]
    exact h w (List.mem_cons_self _ _)
  | w :: w' :: ws, h => by
    rw [joinSep]
    intro c hc
    rcases List.mem_append.mp hc with hc | hc
    · exact h w (List.mem_cons_self _ _) c hc
    · rcases List.mem_cons.mp hc with hc | hc
      · exact hc ▸ hP
      · exact joinSep_forall sc P hP (w' :: ws)
          (fun u hu => h u (List.mem_cons_of_mem _ hu)) c hc

/-- The head of a join of words starting with a non-empty word is that word's
head. -/
theorem head?_joinSep (sc a : Char) (as : List Char) :
    ∀ ws : List (List Char), (joinSep sc ((a :: as) :: ws)).head? = some a := by
  intro ws
  cases ws with
  | nil => rfl
  | cons w' ws' => rfl

/-- The last character of a join of non-empty words is the last character of
the last word. -/
theorem getLast?_joinSep (sc : Char) :
    ∀ ws : List (List Char), ∀ w : List Char, (∀ u ∈ ws, u ≠ []) →
      ws.getLast? = some w → (joinSep sc ws).getLast? = w.getLast?
  | [], w, _, hlast => by simp at hlast
  | [u], w, _, hlast => by
    rw [List.getLast?_singleton, Option.some_inj] at hlast
    subst hlast
    rw [joinSep]
  | u :: u' :: ws, w, hne, hlast => by
    rw [List.getLast?_cons_cons] at hlast
    have hJ := getLast?_joinSep sc (u' :: ws) w
      (fun x hx => hne x (List.mem_cons_of_mem _ hx)) hlast
    have hwne : w ≠ [] :=
      hne w (List.mem_cons_of_mem _ (List.mem_of_mem_getLast? hlast))
    obtain ⟨x, hx⟩ := Option.isSome_iff_exists.mp (List.getLast?_isSome.mpr hwne)
    rw [joinSep, List.getLast?_append]
    have hcons : (sc :: joinSep sc (u' :: ws)).getLast? = some x := by
      rw [show sc :: joinSep sc (u' :: ws) = [sc] ++ joinSep sc (u' :: ws) from rfl,
        List.getLast?_append, hJ, hx, Option.or_some]
    rw [hcons, Option.or_some]
    exact hx.symm

/-- A join of non-empty words avoiding the separator never has two adjacent
separator characters. -/
theorem chain'_joinSep (sc : Char) :
    ∀ ws : List (List Char), (∀ w ∈ ws, w ≠ [] ∧ ∀ c ∈ w, c ≠ sc) →
      List.Chain' (fun a b => ¬(a = sc ∧ b = sc)) (joinSep sc ws)
  | [], _ => by simp [joinSep]
  | [w], h => by
    rw [joinSep]
    exact List.Pairwise.chain'
      (List.pairwise_of_forall_mem_list
        (fun a ha b _ hab => (h w (List.mem_cons_self _ _)).2 a ha hab.1))
  | w :: w' :: ws, h => by
    rw [joinSep, List.chain'_append]
    refine ⟨?_, ?_, ?_⟩
    · exact List.Pairwise.chain'
        (List.pairwise_of_forall_mem_list
          (fun a ha b _ hab => (h w (List.mem_cons_self _ _)).2 a ha hab.1))
    · rw [List.chain'_cons']
      refine ⟨?_, chain'_joinSep sc (w' :: ws)
        (fun u hu => h u (List.mem_cons_of_mem _ hu))⟩
      intro y hy hcontra
      have hw' := h w' (List.mem_cons_of_mem _ (List.mem_cons_self _ _))
      obtain ⟨a, as, ha⟩ := List.exists_cons_of_ne_nil hw'.1
      rw [ha, head?_joinSep] at hy
      rw [Option.mem_some_iff] at hy
      refine hw'.2 a (ha ▸ (List.mem_cons_self _ _)) ?_
      rw [hy]
      exact hcontra.2
    · intro x hx y _ hcontra
      exact (h w (List.mem_cons_self _ _)).2 x
        (List.mem_of_mem_getLast? hx) hcontra.1

/-! ### Word-level lemmas for title-casing -/

theorem data_asString (l : List Char) : (List.asString l).data = l := rfl

theorem lowerWord_lowerWord (w : List Char) : lowerWord (lowerWord w) = lowerWord w := by
  simp only [lowerWord, List.map_map]
  exact List.map_congr_left (fun a _ => lowerChar_lowerChar a)

theorem lowerWord_capWord (w : List Char) : lowerWord (capWord w) = lowerWord w := by
  cases w with
  | nil => rfl
  | cons c cs =>
    simp only [capWord, lowerWord, List.map_cons, List.map_map, lowerChar_upperChar]
    exact congrArg _ (List.map_congr_left (fun a _ => lowerChar_lowerChar a))

theorem isSmallWord_capWord (w : List Char) : isSmallWord (capWord w) = isSmallWord w := by
  rw [isSmallWord, isSmallWord, lowerWord_capWord]

theorem isSmallWord_lowerWord (w : List Char) : isSmallWord (lowerWord w) = isSmallWord w := by
  rw [isSmallWord, isSmallWord, lowerWord_lowerWord]

theorem capWord_capWord (w : List Char) : capWord (capWord w) = capWord w := by
  cases w with
  | nil => rfl
  | cons c cs =>
    simp only [capWord, upperChar_upperChar, List.map_map]
    exact congrArg _ (List.map_congr_left (fun a _ => lowerChar_lowerChar a))

theorem capWord_ne_nil {w : List Char} (h : w ≠ []) : capWord w ≠ [] := by
  cases w with
  | nil => exact absurd rfl h
  | cons c cs => simp [capWord]

theorem lowerWord_ne_nil {w : List Char} (h : w ≠ []) : lowerWord w ≠ [] := by
  simpa [lowerWord] using h

theorem tcMiddle_tcMiddle (w : List Char) : tcMiddle (tcMiddle w) = tcMiddle w := by
  by_cases h : isSmallWord w = true
  · have h1 : tcMiddle w = lowerWord w := by rw [tcMiddle, if_pos h]
    rw [h1, tcMiddle, isSmallWord_lowerWord, if_pos h]
    exact lowerWord_lowerWord w
  · have h1 : tcMiddle w = capWord w := by rw [tcMiddle, if_neg h]
    rw [h1, tcMiddle, isSmallWord_capWord, if_neg h]
    exact capWord_capWord w

theorem tcMiddle_ne_nil {w : List Char} (h : w ≠ []) : tcMiddle w ≠ [] := by
  rw [tcMiddle]
  split
  · exact lowerWord_ne_nil h
  · exact capWord_ne_nil h

theorem tcRest_cons (w : List Char) (ws : List (List Char)) :
    ∃ y l, tcRest (w :: ws) = y :: l := by
  cases ws with
  | nil => exact ⟨capWord w, [], rfl⟩
  | cons w' ws' => exact ⟨tcMiddle w, tcRest (w' :: ws'), rfl⟩

theorem tcRest_tcRest : ∀ ws : List (List Char), tcRest (tcRest ws) = tcRest ws
  | [] => rfl
  | [w] => by rw [tcRest, tcRest, capWord_capWord]
  | w :: w' :: ws => by
    obtain ⟨y, l, hy⟩ := tcRest_cons w' ws
    rw [tcRest, hy, tcRest, tcMiddle_tcMiddle, ← hy, tcRest_tcRest (w' :: ws)]

theorem tcWords_tcWords : ∀ ws : List (List Char), tcWords (tcWords ws) = tcWords ws
  | [] => rfl
  | w :: ws => by rw [tcWords, tcWords, capWord_capWord, tcRest_tcRest]

/-- Word shape: a good word (non-empty, no separator characters) stays good
under capitalization. -/
theorem good_capWord {w : List Char} (h : w ≠ [] ∧ ∀ c ∈ w, isSpaceChar c = false) :
    capWord w ≠ [] ∧ ∀ c ∈ capWord w, isSpaceChar c = false := by
  refine ⟨capWord_ne_nil h.1, ?_⟩
  cases w with
  | nil => simp [capWord]
  | cons c cs =>
    intro x hx
    rw [capWord] at hx
    rcases List.mem_cons.mp hx with hx | hx
    · rw [hx, isSpaceChar_upperChar]
      exact h.2 c (List.mem_cons_self _ _)
    · obtain ⟨a, ha, rfl⟩ := List.mem_map.mp hx
      rw [isSpaceChar_lowerChar]
      exact h.2 a (List.mem_cons_of_mem _ ha)

theorem good_lowerWord {w : List Char} (h : w ≠ [] ∧ ∀ c ∈ w, isSpaceChar c = false) :
    lowerWord w ≠ [] ∧ ∀ c ∈ lowerWord w, isSpaceChar c = false := by
  refine ⟨lowerWord_ne_nil h.1, ?_⟩
  intro x hx
  obtain ⟨a, ha, rfl⟩ := List.mem_map.mp hx
  rw [isSpaceChar_lowerChar]
  exact h.2 a ha

theorem good_tcMiddle {w : List Char} (h : w ≠ [] ∧ ∀ c ∈ w, isSpaceChar c = false) :
    tcMiddle w ≠ [] ∧ ∀ c ∈ tcMiddle w, isSpaceChar c = false := by
  rw [tcMiddle]
  split
  · exact good_lowerWord h
  · exact good_capWord h

theorem good_tcRest :
    ∀ ws : List (List Char), (∀ w ∈ ws, w ≠ [] ∧ ∀ c ∈ w, isSpaceChar c = false) →
      ∀ w' ∈ tcRest ws, w' ≠ [] ∧ ∀ c ∈ w', isSpaceChar c = false
  | [], _ => by simp [tcRest]
  | [w], h => by
    intro w' hw'
    rw [tcRest, List.mem_singleton] at hw'
    subst hw'
    exact good_capWord (h w (List.mem_cons_self _ _))
  | w :: w' :: ws, h => by
    intro u hu
    rw [tcRest] at hu
    rcases List.mem_cons.mp hu with hu | hu
    · subst hu
      exact good_tcMiddle (h w (List.mem_cons_self _ _))
    · exact good_tcRest (w' :: ws) (fun x hx => h x (List.mem_cons_of_mem _ hx)) u hu

theorem good_tcWords :
    ∀ ws : List (List Char), (∀ w ∈ ws, w ≠ [] ∧ ∀ c ∈ w, isSpaceChar c = false) →
      ∀ w' ∈ tcWords ws, w' ≠ [] ∧ ∀ c ∈ w', isSpaceChar c = false
  | [], _ => by simp [tcWords]
  | w :: ws, h => by
    intro u hu
    rw [tcWords] at hu
    rcases List.mem_cons.mp hu with hu | hu
    · subst hu
      exact good_capWord (h w (List.mem_cons_self _ _))
    · exact good_tcRest ws (fun x hx => h x (List.mem_cons_of_mem _ hx)) u hu

/-! ### Title-casing round trip -/

theorem titlecase_data (s : String) :
    (titlecase s).data = joinSep ' ' (tcWords (splitSep isSpaceChar s.data [])) := rfl

/-- Words produced by splitting on whitespace are non-empty and contain no
whitespace. -/
theorem good_words (l : List Char) :
    ∀ w ∈ splitSep isSpaceChar l [], w ≠ [] ∧ ∀ c ∈ w, isSpaceChar c = false := by
  intro w hw
  have h := splitSep_sound isSpaceChar (fun _ => True) l [] (by simp) (by simp) w hw
  exact ⟨h.1, fun c hc => (h.2 c hc).2⟩

/-! ### Slug normalization facts -/

theorem slugify_data (s : String) :
    (slugify s).data =
      joinSep '-' (splitSep isSpaceChar (s.data.filterMap slugMapChar) []) := rfl

/-- Characters surviving `slugMapChar` are lowercase letters, digits, or the
separator space. -/
theorem slugMapChar_sound {a c : Char} (h : slugMapChar a = some c) :
    (isLowerAlpha c = true ∨ isDigitChar c = true) ∨ c = ' ' := by
  rw [slugMapChar] at h
  by_cases h1 : isUpperAlpha a = true
  · rw [if_pos h1, Option.some_inj] at h
    exact Or.inl (Or.inl (h ▸ isLowerAlpha_lowerChar_of_upper h1))
  · rw [if_neg h1] at h
    by_cases h2 : (isLowerAlpha a || isDigitChar a) = true
    · rw [if_pos h2, Option.some_inj] at h
      subst h
      exact Or.inl (Bool.or_eq_true_iff.mp h2)
    · rw [if_neg h2] at h
      by_cases h3 : (isSpaceChar a || a.toNat == 45 || a.toNat == 95) = true
      · rw [if_pos h3, Option.some_inj] at h
        exact Or.inr h.symm
      · rw [if_neg h3] at h
        exact absurd h (by simp)

/-- Every word of a slug is non-empty and made of lowercase letters and
digits. -/
theorem slug_words_good (s : String) :
    ∀ w ∈ splitSep isSpaceChar (s.data.filterMap slugMapChar) [],
      w ≠ [] ∧ ∀ c ∈ w,
        (isLowerAlpha c = true ∨ isDigitChar c = true) ∧ isSpaceChar c = false := by
  intro w hw
  refine splitSep_sound isSpaceChar
    (fun c => isLowerAlpha c = true ∨ isDigitChar c = true) _ [] ?_ (by simp) w hw
  intro c hc hcs
  obtain ⟨a, _, ha⟩ := List.mem_filterMap.mp hc
  rcases slugMapChar_sound ha with h | h
  · exact h
  · subst h
    exact absurd hcs (by decide)

theorem alnum_ne_hyphen {c : Char}
    (h : isLowerAlpha c = true ∨ isDigitChar c = true) : c ≠ '-' := by
  intro hc
  subst hc
  revert h
  decide

/-! ### Equations for the three branches of `mkpost` -/

theorem mkpost_baddir {fs : FS} {dir raw_title today : String}
    (h : fs.isDir dir = false) :
    mkpost fs dir raw_title today = (fs, .error (configurationError dir)) := by
  simp [mkpost, h]

theorem mkpost_conflict {fs : FS} {dir raw_title today : String}
    (hdir : fs.isDir dir = true)
    (hex : fs.pathExists (targetPath dir today (slugify raw_title)) = true) :
    mkpost fs dir raw_title today =
      (fs, .error (conflictError (targetPath dir today (slugify raw_title)))) := by
  simp [mkpost, hdir, hex]

theorem mkpost_ok {fs : FS} {dir raw_title today : String}
    (hdir : fs.isDir dir = true)
    (hfree : fs.pathExists (targetPath dir today (slugify raw_title)) = false) :
    mkpost fs dir raw_title today =
      ({ files := (targetPath dir today (slugify raw_title),
                   template (titlecase raw_title) today (slugify raw_title)) :: fs.files,
         dirs := fs.dirs },
       .ok (targetPath dir today (slugify raw_title))) := by
  simp [mkpost, hdir, hfree]

/-- The two error messages can never coincide, whatever paths they embed:
their last 26 characters differ. -/
theorem confMsg_ne_conflictMsg (p q : String) :
    p ++ " is not a directory! Aborting." ≠ q ++ " already exists! Aborting." := by
  intro h
  have hd := congrArg String.data h
  rw [String.data_append, String.data_append] at hd
  have hr := congrArg List.reverse hd
  rw [List.reverse_append, List.reverse_append] at hr
  have h26 := congrArg (List.take 26) hr
  rw [List.take_append_of_le_length (by decide),
    List.take_append_of_le_length (by decide)] at h26
  exact absurd h26 (by decide)

/-! ### Claim theorems -/

/-- C1: for every non-empty raw title, existing directory, and free target
path, the scaffolder adds exactly one file at
`directory + "/" + date + "_" + slug + ".md"` whose entire content is, in
fixed order, the Title, Date, Tags and Slug header lines, a blank line,
`Text here`, and a trailing blank line; in particular, title `"hello world"`
on `2024-03-05` yields `2024-03-05_hello-world.md` with `Title: Hello World`,
`Date: 2024-03-05` and `Slug: hello-world`. -/
theorem mkpost_creates_post (fs : FS) (dir raw_title today : String)
    (htitle : raw_title ≠ "")
    (hdir : fs.isDir dir = true)
    (hfree : fs.pathExists
      (dir ++ "/" ++ today ++ "_" ++ slugify raw_title ++ ".md") = false) :
    mkpost fs dir raw_title today =
      ({ files := (dir ++ "/" ++ today ++ "_" ++ slugify raw_title ++ ".md",
                   "Title: " ++ titlecase raw_title ++ "\nDate: " ++ today ++
                   "\nTags: Python, Pelican\nSlug: " ++ slugify raw_title ++
                   "\n\nText here\n\n") :: fs.files,
         dirs := fs.dirs },
       .ok (dir ++ "/" ++ today ++ "_" ++ slugify raw_title ++ ".md")) ∧
    mkpost ⟨[], ["content"]⟩ "content" "hello world" "2024-03-05" =
      ({ files := [("content/2024-03-05_hello-world.md",
            "Title: Hello World\nDate: 2024-03-05\nTags: Python, Pelican\nSlug: hello-world\n\nText here\n\n")],
         dirs := ["content"] },
       .ok "content/2024-03-05_hello-world.md") :=
  ⟨mkpost_ok hdir hfree, by rfl⟩

theorem mkpost_creates_post_witness :
    mkpost ⟨[], ["content"]⟩ "content" "hello world" "2024-03-05" =
      ({ files := [("content/2024-03-05_hello-world.md",
            "Title: Hello World\nDate: 2024-03-05\nTags: Python, Pelican\nSlug: hello-world\n\nText here\n\n")],
         dirs := ["content"] },
       .ok "content/2024-03-05_hello-world.md") :=
  (mkpost_creates_post ⟨[], ["content"]⟩ "content" "hello world" "2024-03-05"
    (by decide) (by decide) (by decide)).2

/-- C2: when the computed target path already exists, the operation fails with
the conflict error naming that path, performs no overwrite or alternate-name
generation, and leaves the filesystem (hence the existing file) untouched;
consequently, running the operation twice with the same title and date makes
the first call succeed and the second fail with the conflict error. -/
theorem mkpost_conflict_behavior (fs : FS) (dir raw_title today : String)
    (hdir : fs.isDir dir = true) :
    (fs.pathExists (targetPath dir today (slugify raw_title)) = true →
       mkpost fs dir raw_title today =
         (fs, .error (conflictError (targetPath dir today (slugify raw_title)))) ∧
       (conflictError (targetPath dir today (slugify raw_title))).message =
         targetPath dir today (slugify raw_title) ++ " already exists! Aborting.") ∧
    (fs.pathExists (targetPath dir today (slugify raw_title)) = false →
       (mkpost fs dir raw_title today).2 =
         .ok (targetPath dir today (slugify raw_title)) ∧
       mkpost (mkpost fs dir raw_title today).1 dir raw_title today =
         ((mkpost fs dir raw_title today).1,
          .error (conflictError (targetPath dir today (slugify raw_title))))) := by
  constructor
  · intro hex
    exact ⟨mkpost_conflict hdir hex, rfl⟩
  · intro hfree
    have h1 := mkpost_ok hdir hfree
    rw [h1]
    refine ⟨rfl, mkpost_conflict ?_ ?_⟩
    · exact hdir
    · simp [FS.pathExists]

theorem mkpost_conflict_behavior_witness :
    mkpost ⟨[("d/2024-03-05_hi.md", "old")], ["d"]⟩ "d" "hi" "2024-03-05" =
      (⟨[("d/2024-03-05_hi.md", "old")], ["d"]⟩,
       .error ⟨"d/2024-03-05_hi.md already exists! Aborting."⟩) :=
  ((mkpost_conflict_behavior ⟨[("d/2024-03-05_hi.md", "old")], ["d"]⟩
      "d" "hi" "2024-03-05" (by decide)).1 (by decide)).1

/-- C3: when the supplied directory is not a directory, the operation fails
with the configuration error naming that path, the filesystem is untouched
(failure is detected before any write), and no file is created. -/
theorem mkpost_bad_directory (fs : FS) (dir raw_title today : String)
    (h : fs.isDir dir = false) :
    mkpost fs dir raw_title today = (fs, .error (configurationError dir)) ∧
    (configurationError dir).message = dir ++ " is not a directory! Aborting." :=
  ⟨mkpost_baddir h, rfl⟩

theorem mkpost_bad_directory_witness :
    mkpost ⟨[], []⟩ "missing" "hi" "2024-03-05" =
      (⟨[], []⟩, .error ⟨"missing is not a directory! Aborting."⟩) :=
  (mkpost_bad_directory ⟨[], []⟩ "missing" "hi" "2024-03-05" (by decide)).1

/-- C4: on success exactly one file is created (the new entry is prepended and
everything else, including the directory set, is unchanged); on every failure
the filesystem is returned exactly as it was, so no mutation happens on any
failure path. -/
theorem mkpost_frame (fs : FS) (dir raw_title today : String) :
    (∀ p, (mkpost fs dir raw_title today).2 = .ok p →
       (mkpost fs dir raw_title today).1.files =
         (p, template (titlecase raw_title) today (slugify raw_title)) :: fs.files ∧
       (mkpost fs dir raw_title today).1.dirs = fs.dirs) ∧
    (∀ e, (mkpost fs dir raw_title today).2 = .error e →
       (mkpost fs dir raw_title today).1 = fs) := by
  by_cases h1 : fs.isDir dir = true
  · by_cases h2 : fs.pathExists (targetPath dir today (slugify raw_title)) = true
    · rw [mkpost_conflict h1 h2]
      exact ⟨fun p hp => by simp at hp, fun e _ => rfl⟩
    · rw [mkpost_ok h1 (Bool.eq_false_iff.mpr h2)]
      constructor
      · intro p hp
        have hp' : (Except.ok (targetPath dir today (slugify raw_title)) :
            Except IOError String) = Except.ok p := hp
        rw [Except.ok.injEq] at hp'
        subst hp'
        exact ⟨rfl, rfl⟩
      · intro e he
        simp at he
  · rw [mkpost_baddir (Bool.eq_false_iff.mpr h1)]
    exact ⟨fun p hp => by simp at hp, fun e _ => rfl⟩

theorem mkpost_frame_witness :
    (mkpost ⟨[], ["d"]⟩ "d" "hi" "2024-03-05").1.files =
      [("d/2024-03-05_hi.md",
        template (titlecase "hi") "2024-03-05" (slugify "hi"))] ∧
    (mkpost ⟨[], ["d"]⟩ "d" "hi" "2024-03-05").1.dirs = ["d"] :=
  (mkpost_frame ⟨[], ["d"]⟩ "d" "hi" "2024-03-05").1 "d/2024-03-05_hi.md" (by rfl)

/-- C5: the generated slug contains only lowercase ASCII letters, digits and
hyphens, with no leading or trailing hyphen and no two consecutive hyphens; in
particular `"  PYTHON   tips & tricks!!"` slugifies to
`"python-tips-tricks"`. -/
theorem slug_wellformed (s : String) :
    (∀ c ∈ (slugify s).data,
       isLowerAlpha c = true ∨ isDigitChar c = true ∨ c = '-') ∧
    (slugify s).data.head? ≠ some '-' ∧
    (slugify s).data.getLast? ≠ some '-' ∧
    List.Chain' (fun a b => ¬(a = '-' ∧ b = '-')) (slugify s).data ∧
    slugify "  PYTHON   tips & tricks!!" = "python-tips-tricks" := by
  refine ⟨?_, ?_, ?_, ?_, by rfl⟩
  · rw [slugify_data]
    refine joinSep_forall '-' _ (Or.inr (Or.inr rfl)) _ ?_
    intro w hw c hc
    rcases ((slug_words_good s w hw).2 c hc).1 with h | h
    · exact Or.inl h
    · exact Or.inr (Or.inl h)
  · rw [slugify_data]
    cases hW : splitSep isSpaceChar (s.data.filterMap slugMapChar) [] with
    | nil => simp [joinSep]
    | cons w ws =>
      have hgood := slug_words_good s w (by rw [hW]; exact List.mem_cons_self _ _)
      obtain ⟨a, as, haw⟩ := List.exists_cons_of_ne_nil hgood.1
      rw [haw, head?_joinSep]
      intro hcon
      rw [Option.some_inj] at hcon
      exact alnum_ne_hyphen
        (hgood.2 a (by rw [haw]; exact List.mem_cons_self _ _)).1 hcon
  · rw [slugify_data]
    cases hW : splitSep isSpaceChar (s.data.filterMap slugMapChar) [] with
    | nil => simp [joinSep]
    | cons w ws =>
      have hne : ∀ u ∈ w :: ws, u ≠ [] := fun u hu =>
        (slug_words_good s u (by rw [hW]; exact hu)).1
      obtain ⟨wl, hwl⟩ := Option.isSome_iff_exists.mp
        (List.getLast?_isSome.mpr (List.cons_ne_nil w ws))
      rw [getLast?_joinSep '-' (w :: ws) wl hne hwl]
      intro hcon
      have hmem : '-' ∈ wl := List.mem_of_mem_getLast? hcon
      have hwlmem : wl ∈ w :: ws := List.mem_of_mem_getLast? hwl
      exact alnum_ne_hyphen
        ((slug_words_good s wl (by rw [hW]; exact hwlmem)).2 '-' hmem).1 rfl
  · rw [slugify_data]
    refine chain'_joinSep '-' _ ?_
    intro w hw
    have hgood := slug_words_good s w hw
    exact ⟨hgood.1, fun c hc => alnum_ne_hyphen (hgood.2 c hc).1⟩

theorem slug_wellformed_witness :
    'h' ∈ (slugify "hello world").data ∧
    (isLowerAlpha 'h' = true ∨ isDigitChar 'h' = true ∨ 'h' = '-') :=
  ⟨by decide, (slug_wellformed "hello world").1 'h' (by decide)⟩

/-- C6: slug generation is deterministic — equal raw titles produce equal
slugs. -/
theorem slug_deterministic (s t : String) (h : s = t) : slugify s = slugify t :=
  congrArg slugify h

theorem slug_deterministic_witness :
    slugify "hello world" = slugify "hello world" :=
  slug_deterministic "hello world" "hello world" rfl

/-- C7: display-title normalization is idempotent — title-casing an already
title-cased string changes nothing. -/
theorem titlecase_idempotent (s : String) : titlecase (titlecase s) = titlecase s := by
  have hTW := good_tcWords (splitSep isSpaceChar s.data []) (good_words s.data)
  have hround := splitSep_join isSpaceChar ' ' (by decide)
    (tcWords (splitSep isSpaceChar s.data [])) hTW
  have h0 : titlecase (titlecase s) =
      (joinSep ' ' (tcWords (splitSep isSpaceChar (titlecase s).data []))).asString := rfl
  rw [h0, titlecase_data, hround, tcWords_tcWords]
  rfl

/-- C8 (counterexample): it is not the case that the directory supplied via
`--dir` is resolved to an absolute path before validation and path
composition: a relative directory is used verbatim, producing a relative
target path. -/
theorem dir_not_resolved_counterexample :
    ¬ ∀ (fs : FS) (raw_title d today root p : String),
        (mainRun fs raw_title (some d) today root).2 = Except.ok p →
          isAbsPath p = true := by
  intro h
  have hc := h ⟨[], ["photos"]⟩ "hi" "photos" "2024-03-05" "/root/content"
    "photos/2024-03-05_hi.md" (by rfl)
  exact absurd hc (by decide)

/-- C8 (amended): only the default content root is an absolute path (the
`realpath`-computed `ROOT_DIR`); a directory supplied via `--dir` is used
verbatim, without resolution, by the whole invocation. -/
theorem dir_used_verbatim (fs : FS) (raw_title : String) (dirArg : Option String)
    (today repoRoot d : String) (habs : isAbsPath repoRoot = true) :
    isAbsPath (rootDir repoRoot) = true ∧
    usedDir (some d) (rootDir repoRoot) = d ∧
    usedDir none (rootDir repoRoot) = rootDir repoRoot ∧
    mainRun fs raw_title dirArg today (rootDir repoRoot) =
      mkpost fs (usedDir dirArg (rootDir repoRoot)) raw_title today := by
  refine ⟨?_, rfl, rfl, rfl⟩
  rw [isAbsPath, rootDir, String.data_append]
  rw [isAbsPath] at habs
  have hh : repoRoot.data.head? = some '/' := by simpa using habs
  cases hr : repoRoot.data with
  | nil => rw [hr] at hh; simp at hh
  | cons a l =>
    rw [hr] at hh
    rw [List.head?_cons, Option.some_inj] at hh
    rw [List.cons_append]
    simp [hh]

theorem dir_used_verbatim_witness :
    isAbsPath (rootDir "/repo") = true ∧
    usedDir (some "photos") (rootDir "/repo") = "photos" ∧
    usedDir none (rootDir "/repo") = rootDir "/repo" ∧
    mainRun ⟨[], []⟩ "hi" (some "photos") "2024-03-05" (rootDir "/repo") =
      mkpost ⟨[], []⟩ (usedDir (some "photos") (rootDir "/repo")) "hi" "2024-03-05" :=
  dir_used_verbatim ⟨[], []⟩ "hi" (some "photos") "2024-03-05" "/repo" "photos"
    (by decide)

/-- C9: both failure kinds are raised as the same exception type (`IOError`),
distinguishable only by the message text — `... is not a directory! Aborting.`
versus `... already exists! Aborting.` — each embedding the offending path;
and those two messages can never coincide. -/
theorem io_error_single_type (fs : FS) (dir raw_title today p q : String) :
    (fs.isDir dir = false →
       mkpost fs dir raw_title today =
         (fs, .error (IOError.mk (dir ++ " is not a directory! Aborting.")))) ∧
    (fs.isDir dir = true →
       fs.pathExists (targetPath dir today (slugify raw_title)) = true →
       mkpost fs dir raw_title today =
         (fs, .error (IOError.mk (targetPath dir today (slugify raw_title) ++
           " already exists! Aborting.")))) ∧
    IOError.mk (p ++ " is not a directory! Aborting.") ≠
      IOError.mk (q ++ " already exists! Aborting.") :=
  ⟨fun h => mkpost_baddir h,
   fun h1 h2 => mkpost_conflict h1 h2,
   fun h => confMsg_ne_conflictMsg p q (congrArg IOError.message h)⟩

theorem io_error_single_type_witness :
    mkpost ⟨[], []⟩ "x" "t" "2024-03-05" =
      (⟨[], []⟩, .error (IOError.mk "x is not a directory! Aborting.")) :=
  (io_error_single_type ⟨[], []⟩ "x" "t" "2024-03-05" "p" "q").1 (by decide)

/-- C10: the non-empty-title precondition is not enforced: a raw title whose
slug is empty (for example one made only of punctuation) still succeeds
against an existing directory, creating `<date>_.md` with an empty
`Slug:` header field. -/
theorem empty_slug_accepted (fs : FS) (dir raw_title today : String)
    (hdir : fs.isDir dir = true)
    (hslug : slugify raw_title = "")
    (hfree : fs.pathExists (dir ++ "/" ++ today ++ "_.md") = false) :
    mkpost fs dir raw_title today =
      ({ files := (dir ++ "/" ++ today ++ "_.md",
           "Title: " ++ titlecase raw_title ++ "\nDate: " ++ today ++
           "\nTags: Python, Pelican\nSlug: \n\nText here\n\n") :: fs.files,
         dirs := fs.dirs },
       .ok (dir ++ "/" ++ today ++ "_.md")) ∧
    slugify "!!!" = "" := by
  have htp : targetPath dir today (slugify raw_title) =
      dir ++ "/" ++ today ++ "_.md" := by
    rw [hslug, targetPath, String.append_empty, String.append_assoc]
    rfl
  have htemp : template (titlecase raw_title) today (slugify raw_title) =
      "Title: " ++ titlecase raw_title ++ "\nDate: " ++ today ++
      "\nTags: Python, Pelican\nSlug: \n\nText here\n\n" := by
    rw [hslug, template, String.append_empty, String.append_assoc]
    rfl
  refine ⟨?_, by rfl⟩
  rw [mkpost_ok hdir (by rw [htp]; exact hfree), htp, htemp]

theorem empty_slug_accepted_witness :
    mkpost ⟨[], ["d"]⟩ "d" "!!!" "2024-03-05" =
      ({ files := [("d/2024-03-05_.md",
           "Title: !!!\nDate: 2024-03-05\nTags: Python, Pelican\nSlug: \n\nText here\n\n")],
         dirs := ["d"] },
       .ok "d/2024-03-05_.md") :=
  (empty_slug_accepted ⟨[], ["d"]⟩ "d" "!!!" "2024-03-05"
    (by decide) (by rfl) (by decide)).1

end Mkpost
